import Mathlib

/-!
Shallow embedding of the `rtodo` hierarchical todo-list engine
(`src/todo_list.rs`) and its deadline parser (`src/utils.rs`).

Machine integers (`usize`, `i64`) are modelled as `Nat` / `Int`; overflow
is irrelevant at the sizes the program handles.  `chrono::DateTime<Local>`
is modelled as an epoch-second integer together with an explicit timezone
offset `tz` (seconds east of UTC) where local calendar arithmetic occurs.
`chrono::Duration` is a number of seconds.

Rust `Result<T, anyhow::Error>` becomes `Except TdError T` with a
structured error type mirroring the distinct `anyhow!` messages of the
source.  Methods taking `&mut self` are modelled by explicit state
passing; `remove_item`, whose in-place mutations can survive an error
return, yields the post-state alongside the result.
-/

set_option maxHeartbeats 1000000

namespace Rtodo

/-- Structured rendering of the distinct `anyhow!` error messages of the
source (`todo_list.rs`, `utils.rs`). -/
inductive TdError where
  /-- "Invalid path format: {path}" -/
  | invalidPathFormat (path : String)
  /-- "Not found path." -/
  | pathNotFound
  /-- "Index {index} out of bounds at depth {depth} (path: {path})" -/
  | indexOutOfBounds (index depth : Nat) (path : String)
  /-- "No sublist at index {index} (path: {path})" -/
  | noSublistAtIndex (index : Nat) (path : String)
  /-- "Item with id {id} not found" -/
  | itemNotFound (id : Nat)
  /-- "ID {id} is not in use" -/
  | idNotInUse (id : Nat)
  /-- "Invalid deadline format. ..." -/
  | invalidDeadlineFormat
  /-- remove_item's split_path context "Invalid parse format" -/
  | invalidParseFormat
  deriving DecidableEq, Repr

/-- `IdPool` (`todo_list.rs` lines 20-24): `next_id: usize`,
`recycled_ids: Vec<usize>`, `used_ids: HashSet<usize>`.  The `Vec` keeps
Rust order: `push` appends at the back, `pop` removes from the back. -/
structure IdPool where
  next_id : Nat
  recycled_ids : List Nat
  used_ids : Finset Nat
  deriving DecidableEq

/-- `IdPool::new` (lines 34-40). -/
def IdPool.new : IdPool := ⟨0, [], ∅⟩

/-- `IdPool::acquire_id` (lines 43-53): pop a recycled id if available,
else issue `next_id` and increment; either way insert into `used_ids`.
Returns the new pool state together with the id.  Total: never fails. -/
def IdPool.acquire_id (p : IdPool) : IdPool × Nat :=
  match p.recycled_ids.getLast? with
  | some id =>
      (⟨p.next_id, p.recycled_ids.dropLast, insert id p.used_ids⟩, id)
  | none =>
      (⟨p.next_id + 1, p.recycled_ids, insert p.next_id p.used_ids⟩, p.next_id)

/-- `IdPool::release_id` (lines 56-64): error unless `id ∈ used_ids`;
otherwise remove it from `used_ids` and push it onto `recycled_ids`. -/
def IdPool.release_id (p : IdPool) (id : Nat) : Except TdError IdPool :=
  if id ∈ p.used_ids then
    .ok ⟨p.next_id, p.recycled_ids ++ [id], p.used_ids.erase id⟩
  else
    .error (.idNotInUse id)

/-- Deadlines are stored on items as formatted text (`deadline.to_string()`
in the source); the formatting function is modelled as `toString` on the
epoch-second integer. -/
def timeToString (t : Int) : String := toString t

mutual
/-- `TodoItem` (`todo_list.rs` lines 8-17). -/
inductive TodoItem where
  | mk (id : Nat) (description : String) (completed : Bool)
       (deadline : Option String) (sub_list : Option TodoList) : TodoItem

/-- `TodoList` (`todo_list.rs` lines 26-30). -/
inductive TodoList where
  | mk (items : List TodoItem) (id_pool : IdPool) : TodoList
end

def TodoItem.id : TodoItem → Nat
  | .mk i _ _ _ _ => i

def TodoItem.description : TodoItem → String
  | .mk _ d _ _ _ => d

def TodoItem.completed : TodoItem → Bool
  | .mk _ _ c _ _ => c

def TodoItem.deadline : TodoItem → Option String
  | .mk _ _ _ dl _ => dl

def TodoItem.sub_list : TodoItem → Option TodoList
  | .mk _ _ _ _ s => s

/-- Replace an item's `sub_list` field (models assignment through the
`&mut` reference obtained from `get_or_insert`). -/
def TodoItem.setSub : TodoItem → Option TodoList → TodoItem
  | .mk i d c dl _, s => .mk i d c dl s

def TodoList.items : TodoList → List TodoItem
  | .mk is _ => is

def TodoList.id_pool : TodoList → IdPool
  | .mk _ p => p

/-- `TodoList::new` (lines 75-80). -/
def TodoList.new : TodoList := .mk [] IdPool.new

/-! ### Path strings

`parse_path` first splits the path on `':'` and parses every segment with
`str::parse::<usize>` (which accepts an optional leading `'+'` before the
digits and rejects the empty string). -/

/-- Digits of a decimal numeral folded into a `Nat`. -/
def natOfDigits (s : List Char) : Nat :=
  s.foldl (fun a c => 10 * a + (c.toNat - '0'.toNat)) 0

/-- Rust `str::parse::<usize>`: optional leading `'+'`, then one or more
ASCII digits (overflow ignored: `Nat` is unbounded). -/
def parseUsize (s : List Char) : Option Nat :=
  let t := if s.head? = some '+' then s.tail else s
  if t ≠ [] ∧ t.all (·.isDigit) then some (natOfDigits t) else none

/-- Rust `str::split(':')`: the (possibly empty) segments between the
colons; splitting the empty string yields one empty segment. -/
def splitColon : List Char → List (List Char)
  | [] => [[]]
  | c :: rest =>
    if c = ':' then [] :: splitColon rest
    else
      match splitColon rest with
      | t :: ts => (c :: t) :: ts
      | [] => [[c]]

/-- The index list of a path: `path.split(':').map(parse::<usize>)`,
failing if any segment fails (`todo_list.rs` lines 86-90).  Note
`"".split(':')` yields the single segment `""`. -/
def pathIndices (path : String) : Option (List Nat) :=
  (splitColon path.data).mapM parseUsize

/-- The walk of `parse_path`'s loop (`todo_list.rs` lines 96-116) over an
already-parsed index list: at each segment the index is bounds-checked
(else `IndexOutOfBounds {index, depth, path}`); the final segment's item
is returned; at a non-final segment the item must own a sub-list (else
`NoSublistAtIndex {index, path}`) into which the walk descends. -/
def walkPath (l : TodoList) (idx : List Nat) (depth : Nat) (path : String) :
    Except TdError TodoItem :=
  match idx with
  | [] => .error .pathNotFound
  | i :: rest =>
    match l.items[i]? with
    | none => .error (.indexOutOfBounds i depth path)
    | some it =>
      if rest = [] then .ok it
      else
        match it.sub_list with
        | none => .error (.noSublistAtIndex i path)
        | some s => walkPath s rest (depth + 1) path

/-- `TodoList::parse_path` (`todo_list.rs` lines 85-119): split / parse
the segments (`InvalidPathFormat` on any parse failure), return
`PathNotFound` for an empty segment list (dead: splitting always yields at
least one segment), then walk. -/
def TodoList.parse_path (l : TodoList) (path : String) : Except TdError TodoItem :=
  match pathIndices path with
  | none => .error (.invalidPathFormat path)
  | some indices =>
    if indices = [] then .error .pathNotFound
    else walkPath l indices 0 path

/-- The same traversal as `walkPath`, but applying `f` to the finally
addressed item in place.  `f` returns the replacement item together with
an auxiliary value (models operating through the `&mut TodoItem` that
`parse_path` returns: `edit_item` / `complete_item` mutate the item
itself, `add_item` / `remove_item` work inside its sub-list).  On success
the updated list and the auxiliary value are returned; the error cases
and their order are exactly those of `walkPath`. -/
def modifyPath {α : Type} (l : TodoList) (idx : List Nat) (depth : Nat)
    (path : String) (f : TodoItem → TodoItem × α) :
    Except TdError (TodoList × α) :=
  match idx with
  | [] => .error .pathNotFound
  | i :: rest =>
    match l.items[i]? with
    | none => .error (.indexOutOfBounds i depth path)
    | some it =>
      if rest = [] then
        let r := f it
        .ok (.mk (l.items.set i r.1) l.id_pool, r.2)
      else
        match it.sub_list with
        | none => .error (.noSublistAtIndex i path)
        | some s =>
          match modifyPath s rest (depth + 1) path f with
          | .error e => .error e
          | .ok (s', a) =>
            .ok (.mk (l.items.set i (it.setSub (some s'))) l.id_pool, a)

/-- `parse_path` followed by in-place modification of the addressed item:
the split/parse/empty-check prelude of `parse_path` (lines 86-94) then the
mutating walk. -/
def resolveModify {α : Type} (l : TodoList) (path : String)
    (f : TodoItem → TodoItem × α) : Except TdError (TodoList × α) :=
  match pathIndices path with
  | none => .error (.invalidPathFormat path)
  | some indices =>
    if indices = [] then .error .pathNotFound
    else modifyPath l indices 0 path f

/-! ### Engine operations -/

/-- The body of `add_item` once the target list is known (`todo_list.rs`
lines 140-152): acquire an id from the target list's pool, push a fresh
incomplete item carrying `deadline.map(to_string)`, return it (the
`last()` of the vector just pushed to). -/
def TodoList.addCore (l : TodoList) (description : String)
    (deadline : Option Int) : TodoList × TodoItem :=
  let a := l.id_pool.acquire_id
  let item : TodoItem := .mk a.2 description false (deadline.map timeToString) none
  (.mk (l.items ++ [item]) a.1, item)

/-- `TodoList::add_item` (lines 127-153): with a `parent_path`, resolve
the parent item, lazily create its sub-list (`get_or_insert`), and append
there; without one, append to this list.  Only path resolution can
fail. -/
def TodoList.add_item (l : TodoList) (description : String)
    (deadline : Option Int) (parent_path : Option String) :
    Except TdError (TodoList × TodoItem) :=
  match parent_path with
  | some p =>
      resolveModify l p (fun it =>
        let s := it.sub_list.getD TodoList.new
        let r := s.addCore description deadline
        (it.setSub (some r.1), r.2))
  | none => .ok (l.addCore description deadline)

/-- `TodoItem` update performed by `edit_item` (lines 168-169): the
description and the deadline are both overwritten; the deadline becomes
`deadline.map(to_string)` — `None` clears it. -/
def TodoItem.editFields : TodoItem → String → Option Int → TodoItem
  | .mk i _ c _ s, description, deadline =>
      .mk i description c (deadline.map timeToString) s

/-- `TodoList::edit_item` (lines 161-171): resolve the path, then assign
`item.description = description` and
`item.deadline = deadline.map(to_string)`; return the item. -/
def TodoList.edit_item (l : TodoList) (path : String) (description : String)
    (deadline : Option Int) : Except TdError (TodoList × TodoItem) :=
  resolveModify l path (fun it =>
    let it' := it.editFields description deadline
    (it', it'))

/-- `TodoItem::complete` (lines 231-233). -/
def TodoItem.complete : TodoItem → TodoItem
  | .mk i d _ dl s => .mk i d true dl s

/-- `TodoList::complete_item` (lines 185-189): resolve the path, set the
completed flag, return the item. -/
def TodoList.complete_item (l : TodoList) (path : String) :
    Except TdError (TodoList × TodoItem) :=
  resolveModify l path (fun it =>
    let it' := it.complete
    (it', it'))

/-- Split a char list at its last `':'` (Rust `str::rsplit_once(":")`):
`some (before, after)` when a colon exists, else `none`. -/
def rsplitColon : List Char → Option (List Char × List Char)
  | [] => none
  | c :: rest =>
    match rsplitColon rest with
    | some (a, b) => some (c :: a, b)
    | none => if c = ':' then some ([], rest) else none

/-- `split_path` inside `remove_item` (`todo_list.rs` lines 196-205):
split on the last colon into parent path and child id; with no colon the
whole path is the child id at root level.  The child segment is parsed
with `parse::<usize>` (context "Invalid parse format"). -/
def split_path (path : String) : Except TdError (Option String × Nat) :=
  match rsplitColon path.data with
  | some (parent, child) =>
    match parseUsize child with
    | some id => .ok (some ⟨parent⟩, id)
    | none => .error .invalidParseFormat
  | none =>
    match parseUsize path.data with
    | some id => .ok (none, id)
    | none => .error .invalidParseFormat

/-- Remove the first item with the given id from a list of items,
returning it and the remaining items (Rust
`items.iter().position(|item| item.id == id)` followed by
`items.remove(index)`). -/
def removeFirstById : List TodoItem → Nat → Option (TodoItem × List TodoItem)
  | [], _ => none
  | it :: rest, id =>
    if it.id = id then some (it, rest)
    else
      match removeFirstById rest id with
      | some (r, rest') => some (r, it :: rest')
      | none => none

/-- The root-level body of `remove_item` (lines 213-220) acting on the
already-selected parent list: locate the item whose id equals the target
(`ItemNotFound` if absent), release its id from this list's pool, remove
and return it. -/
def TodoList.removeCore (l : TodoList) (id : Nat) :
    Except TdError (TodoList × TodoItem) :=
  match removeFirstById l.items id with
  | none => .error (.itemNotFound id)
  | some (it, items') =>
    match l.id_pool.release_id id with
    | .error e => .error e
    | .ok pool' => .ok (.mk items' pool', it)

/-- `TodoList::remove_item` (lines 194-221).  The final path segment is an
*identifier*; a parent path is resolved with `parse_path` and the parent's
sub-list is obtained with `get_or_insert(TodoList::new())` — an in-place
mutation that persists even when the subsequent id lookup fails.  The
post-state is therefore returned alongside the result: errors raised
before the `get_or_insert` (split/parse failure, path-resolution failure)
leave the list unchanged, while a failure of the core removal inside the
freshly inserted empty sub-list keeps that insertion. -/
def TodoList.remove_item (l : TodoList) (path : String) :
    TodoList × Except TdError TodoItem :=
  match split_path path with
  | .error e => (l, .error e)
  | .ok (some p, id) =>
    match resolveModify l p (fun it =>
      let s := it.sub_list.getD TodoList.new
      match s.removeCore id with
      | .ok (s', rem) => (it.setSub (some s'), Except.ok (ε := TdError) rem)
      | .error e => (it.setSub (some s), .error e)) with
    | .error e => (l, .error e)
    | .ok (l', res) => (l', res)
  | .ok (none, id) =>
    match l.removeCore id with
    | .ok (l', it) => (l', .ok it)
    | .error e => (l, .error e)

/-! ### Deadline parsing (`src/utils.rs`)

Instants are epoch seconds (`Int`); the local timezone is an explicit
offset `tz` in seconds east of UTC.  `chrono::Duration` values are
seconds: `days n = 86400 n`, `hours n = 3600 n`, `minutes n = 60 n`. -/

/-- Rust `str::split_whitespace` on a char list: maximal runs of
non-whitespace characters, no empty tokens.  `acc` holds the current
token's characters in reverse. -/
def wordsAux : List Char → List Char → List (List Char)
  | [], acc => if acc = [] then [] else [acc.reverse]
  | c :: rest, acc =>
    if c.isWhitespace then
      if acc = [] then wordsAux rest [] else acc.reverse :: wordsAux rest []
    else wordsAux rest (c :: acc)

/-- `split_whitespace` (entry point). -/
def words (s : List Char) : List (List Char) := wordsAux s []

/-- Rust `str::ends_with(pat)` on char lists: `pat` is a suffix of `s`. -/
def endsWithL (s pat : List Char) : Bool := decide (pat <:+ s)

/-- Rust `str::trim_end_matches(pat)`: repeatedly remove trailing copies
of `pat` (fuelled by the string length; each removal of a non-empty
pattern shortens the string). -/
def trimEndMatchesAux : Nat → List Char → List Char → List Char
  | 0, s, _ => s
  | fuel + 1, s, pat =>
    if pat ≠ [] ∧ endsWithL s pat then
      trimEndMatchesAux fuel (s.take (s.length - pat.length)) pat
    else s

def trimEndMatches (s pat : List Char) : List Char :=
  trimEndMatchesAux s.length s pat

/-- Rust `str::parse::<i64>`: optional `'+'`/`'-'` sign then one or more
digits (overflow ignored: `Int` is unbounded). -/
def parseI64 (s : List Char) : Option Int :=
  if s.head? = some '-' then
    if s.tail ≠ [] ∧ s.tail.all (·.isDigit) then
      some (-(natOfDigits s.tail : Int))
    else none
  else
    let t := if s.head? = some '+' then s.tail else s
    if t ≠ [] ∧ t.all (·.isDigit) then some (natOfDigits t : Int) else none

/-- The token loop of `parse_duration_offset` (`utils.rs` lines 95-122):
accumulate seconds over the tokens.  A token ending in `"d"`/`"days"`
contributes days, one ending in `"h"`/`"hours"` hours, one ending in
`"m"`/`"min"`/`"minutes"` minutes; the magnitude is what remains after the
branch's `trim_end_matches` chain, parsed as `i64` (`.ok()?`: a parse
failure aborts the whole call).  Any other token is skipped. -/
def sumDurationParts : List (List Char) → Int → Option Int
  | [], acc => some acc
  | p :: rest, acc =>
    if endsWithL p ['d'] || endsWithL p ['d','a','y','s'] then
      match parseI64 (trimEndMatches (trimEndMatches (trimEndMatches p
          ['d']) ['d','a','y']) ['d','a','y','s']) with
      | some n => sumDurationParts rest (acc + 86400 * n)
      | none => none
    else if endsWithL p ['h'] || endsWithL p ['h','o','u','r','s'] then
      match parseI64 (trimEndMatches (trimEndMatches (trimEndMatches p
          ['h']) ['h','o','u','r']) ['h','o','u','r','s']) with
      | some n => sumDurationParts rest (acc + 3600 * n)
      | none => none
    else if endsWithL p ['m'] || endsWithL p ['m','i','n'] ||
        endsWithL p ['m','i','n','u','t','e','s'] then
      match parseI64 (trimEndMatches (trimEndMatches (trimEndMatches
          (trimEndMatches p ['m']) ['m','i','n']) ['m','i','n','u','t','e'])
          ['m','i','n','u','t','e','s']) with
      | some n => sumDurationParts rest (acc + 60 * n)
      | none => none
    else sumDurationParts rest acc

/-- `parse_duration_offset` (`utils.rs` lines 88-125): split the offset on
whitespace, start from `Duration::zero()`, fold the token loop, and return
`base_time + duration`. -/
def parse_duration_offset (s : List Char) (base_time : Int) : Option Int :=
  (sumDurationParts (words s) 0).map (fun dur => base_time + dur)

/-- Local end-of-day of the instant `t`: `t.date_naive()` (the civil date
of `t` in the timezone `tz`) at 23:59:59, converted back to an epoch
second (`and_hms_opt(23,59,59).and_local_timezone(Local)`). -/
def endOfDay (tz t : Int) : Int :=
  ((t + tz).fdiv 86400) * 86400 + (23 * 3600 + 59 * 60 + 59) - tz

/-- `parse_relative_time` (`utils.rs` lines 53-85): the lowercased string
(`to_lowercase` maps `Char::to_lowercase` over the characters) selects the
keywords `today` / `tomorrow` / `nextweek`, each a local end-of-day
instant; otherwise `strip_prefix('+')` on the original string hands the
remainder to `parse_duration_offset` with `now` as base; anything else is
`none`. -/
def parse_relative_time (tz : Int) (time_str : List Char) (now : Int) :
    Option Int :=
  let ls := time_str.map Char.toLower
  if ls = ['t','o','d','a','y'] then some (endOfDay tz now)
  else if ls = ['t','o','m','o','r','r','o','w'] then
    some (endOfDay tz (now + 86400))
  else if ls = ['n','e','x','t','w','e','e','k'] then
    some (endOfDay tz (now + 7 * 86400))
  else
    match time_str with
    | '+' :: duration_str => parse_duration_offset duration_str now
    | _ => none

/-! Chrono `NaiveDateTime::parse_from_str`.  The two formats used by
`parse_deadline` are parsed character by character following chrono's
scanner: a numeric year with an optional sign and maximal-munch digits,
two-digit-max month/day/hour/minute fields, literal separators, trailing
input rejected.  The parsed fields are range-checked as chrono's
`Parsed` resolution does. -/

/-- Take at most `w` leading digits (at least one) as a number. -/
def takeDigits (w : Nat) (s : List Char) : Option (Nat × List Char) :=
  let ds := (s.takeWhile (·.isDigit)).take w
  if ds = [] then none else some (natOfDigits ds, s.drop ds.length)

/-- Days in a month of the proleptic Gregorian calendar. -/
def daysInMonth (y : Int) (m : Nat) : Nat :=
  if m = 2 then
    if y % 4 = 0 ∧ (y % 100 ≠ 0 ∨ y % 400 = 0) then 29 else 28
  else if m = 4 ∨ m = 6 ∨ m = 9 ∨ m = 11 then 30
  else 31

/-- Civil date to days since 1970-01-01 (Gregorian calendar formula). -/
def daysFromCivil (y : Int) (m d : Nat) : Int :=
  let y' : Int := if m ≤ 2 then y - 1 else y
  let era : Int := (if 0 ≤ y' then y' else y' - 399).fdiv 400
  let yoe : Int := y' - era * 400
  let mp : Int := ((m : Int) + 9) % 12
  let doy : Int := (153 * mp + 2).fdiv 5 + (d : Int) - 1
  let doe : Int := yoe * 365 + yoe.fdiv 4 - yoe.fdiv 100 + doy
  era * 146097 + doe - 719468

/-- Parse the date portion `%Y-%m-%d`: signed year, `'-'`, month, `'-'`,
day, with chrono's range checks.  Returns the fields and the rest of the
input. -/
def parseYmd (s : List Char) : Option ((Int × Nat × Nat) × List Char) :=
  let signed : Bool × List Char :=
    match s with
    | '+' :: rest => (false, rest)
    | '-' :: rest => (true, rest)
    | _ => (false, s)
  match takeDigits 100 signed.2 with
  | none => none
  | some (yn, s1) =>
    let y : Int := if signed.1 then -(yn : Int) else (yn : Int)
    match s1 with
    | '-' :: s2 =>
      match takeDigits 2 s2 with
      | none => none
      | some (mo, s3) =>
        match s3 with
        | '-' :: s4 =>
          match takeDigits 2 s4 with
          | none => none
          | some (d, s5) =>
            if 1 ≤ mo ∧ mo ≤ 12 ∧ 1 ≤ d ∧ d ≤ daysInMonth y mo then
              some ((y, mo, d), s5)
            else none
        | _ => none
    | _ => none

/-- `NaiveDateTime::parse_from_str(s, "%Y-%m-%d %H:%M")` followed by
`DateTime::from_naive_utc_and_offset`: the naive fields are read as a UTC
instant (the source attaches the local offset without shifting the
instant).  The space in the format skips whitespace; the entire input must
be consumed. -/
def parseYmdHm (s : List Char) : Option Int :=
  match parseYmd s with
  | none => none
  | some ((y, mo, d), s5) =>
    let s6 := s5.dropWhile (·.isWhitespace)
    match takeDigits 2 s6 with
    | none => none
    | some (h, s7) =>
      match s7 with
      | ':' :: s8 =>
        match takeDigits 2 s8 with
        | none => none
        | some (mi, s9) =>
          if s9 = [] ∧ h ≤ 23 ∧ mi ≤ 59 then
            some (daysFromCivil y mo d * 86400 + (h : Int) * 3600 +
              (mi : Int) * 60)
          else none
      | _ => none

/-- `NaiveDateTime::parse_from_str(s, "%Y-%m-%d")`: the format populates
only the date fields of chrono's `Parsed`; extracting a `NaiveDateTime`
also needs the time-of-day fields, so the call fails (`NotEnough`) for
*every* input — even a well-formed bare date. -/
def parseYmdAsDateTime (s : List Char) : Option Int :=
  match parseYmd s with
  | some _ => none
  | none => none

/-- `parse_deadline` (`utils.rs` lines 132-164): try the full date-time
format, then the date-only format (which can never succeed, see
`parseYmdAsDateTime`), then relative time; otherwise
`InvalidDeadlineFormat`.  A missing argument is also the error. -/
def parse_deadline (tz now : Int) (deadline : Option String) :
    Except TdError Int :=
  match deadline with
  | none => .error .invalidDeadlineFormat
  | some ds =>
    match parseYmdHm ds.data with
    | some t => .ok t
    | none =>
      match parseYmdAsDateTime ds.data with
      | some t => .ok t
      | none =>
        match parse_relative_time tz ds.data now with
        | some t => .ok t
        | none => .error .invalidDeadlineFormat

/-! ### Demo states and verification vocabulary -/

/-- The §8 scenario run through the engine itself: add "buy milk" and
"call mom" to an empty list, remove the item with id 0 (path `"0"`), then
add "walk dog".  Yields the ids of the three added items and the recycle
stack right after the removal. -/
def recycleScenario : Option (Nat × Nat × List Nat × Nat) := do
  let r1 ← (TodoList.new.add_item "buy milk" none none).toOption
  let r2 ← (r1.1.add_item "call mom" none none).toOption
  let r3 := r2.1.remove_item "0"
  let _ ← r3.2.toOption
  let r4 ← (r3.1.add_item "walk dog" none none).toOption
  pure (r1.2.id, r2.2.id, r3.1.id_pool.recycled_ids, r4.2.id)

/-- Demo state: a root whose item at index 0 carries a sub-list holding
one item at index 0. -/
def demo7 : TodoList :=
  .mk [.mk 0 "a" false none
        (some (.mk [.mk 0 "n" false none none] ⟨1, [], {0}⟩))]
    ⟨1, [], {0}⟩

/-- Demo state for C1: one root item whose deadline is set. -/
def demo1 : TodoList := .mk [.mk 0 "a" false (some "77") none] ⟨1, [], {0}⟩

/-- Demo state for C2: one root item, id 0, with no sub-list. -/
def demo2 : TodoList := .mk [.mk 0 "a" false none none] ⟨1, [], {0}⟩

/-- The unit suffixes actually recognized by the token loop, with their
length in seconds: `d`/`days` (the singular `day` matches neither
`ends_with("d")` nor `ends_with("days")`), `h`/`hours`, and
`m`/`min`/`minutes`. -/
def unitTable : List (List Char × Int) :=
  [(['d'], 86400), (['d','a','y','s'], 86400),
   (['h'], 3600), (['h','o','u','r','s'], 3600),
   (['m'], 60), (['m','i','n'], 60), (['m','i','n','u','t','e','s'], 60)]

/-- A token enters one of the three unit branches of the loop. -/
def tokenRecognized (p : List Char) : Bool :=
  (endsWithL p ['d'] || endsWithL p ['d','a','y','s']) ||
  (endsWithL p ['h'] || endsWithL p ['h','o','u','r','s']) ||
  (endsWithL p ['m'] || endsWithL p ['m','i','n'] ||
    endsWithL p ['m','i','n','u','t','e','s'])

/-! ## Verification -/

/-! ### Identifier pool: reuse, double release, partition invariant -/

/-- Exactly one of three propositions holds. -/
def ExactlyOne (a b c : Prop) : Prop :=
  (a ∧ ¬b ∧ ¬c) ∨ (¬a ∧ b ∧ ¬c) ∨ (¬a ∧ ¬b ∧ c)

/-- Every identifier is in exactly one of: never yet issued (at or above
the next-counter), the used set, the recycle stack. -/
def PoolPartition (p : IdPool) : Prop :=
  ∀ id : Nat,
    ExactlyOne (p.next_id ≤ id) (id ∈ p.used_ids) (id ∈ p.recycled_ids)

/-- Pool states reachable from a fresh pool by `acquire_id` and
successful `release_id`. -/
inductive ReachablePool : IdPool → Prop where
  | new : ReachablePool IdPool.new
  | acquire (p : IdPool) : ReachablePool p → ReachablePool p.acquire_id.1
  | release (p : IdPool) (id : Nat) (p' : IdPool) : ReachablePool p →
      p.release_id id = .ok p' → ReachablePool p'

/-- Auxiliary invariant: the partition plus distinctness of the recycle
stack (needed to show a popped id does not linger on the stack). -/
def PoolInv (p : IdPool) : Prop := PoolPartition p ∧ p.recycled_ids.Nodup

lemma poolInv_new : PoolInv IdPool.new := by
  constructor
  · intro id
    left
    refine ⟨Nat.zero_le id, ?_, ?_⟩ <;> simp [IdPool.new]
  · simp [IdPool.new]

lemma poolInv_acquire (p : IdPool) (h : PoolInv p) :
    PoolInv p.acquire_id.1 := by
  obtain ⟨hpart, hnd⟩ := h
  unfold IdPool.acquire_id
  rcases hx : p.recycled_ids.getLast? with - | x
  · -- fresh counter value issued
    unfold PoolInv PoolPartition
    dsimp only
    have hnext := hpart p.next_id
    constructor
    · intro id
      rcases Nat.lt_trichotomy id p.next_id with hlt | heq | hgt
      · rcases hpart id with ⟨h1, _, _⟩ | ⟨h1, h2, h3⟩ | ⟨h1, h2, h3⟩
        · omega
        · right; left
          refine ⟨by omega, by simp [Finset.mem_insert, h2], h3⟩
        · right; right
          refine ⟨by omega, ?_, h3⟩
          simp only [Finset.mem_insert]
          rintro (rfl | hmem)
          · omega
          · exact h2 hmem
      · subst heq
        right; left
        rcases hnext with ⟨_, _, h3⟩ | ⟨h1, _, _⟩ | ⟨h1, _, _⟩
        · exact ⟨by omega, by simp, h3⟩
        · exact absurd le_rfl h1
        · exact absurd le_rfl h1
      · left
        rcases hpart id with ⟨_, h2, h3⟩ | ⟨h1, _, _⟩ | ⟨h1, _, _⟩
        · refine ⟨by omega, ?_, h3⟩
          simp only [Finset.mem_insert]
          rintro (rfl | hmem)
          · omega
          · exact h2 hmem
        · exact absurd (by omega) h1
        · exact absurd (by omega) h1
    · exact hnd
  · -- recycled id popped
    obtain ⟨ys, hys⟩ := List.getLast?_eq_some_iff.mp hx
    have hxmem : x ∈ p.recycled_ids := by simp [hys]
    have hxprop := hpart x
    have hxused : x ∉ p.used_ids := by
      rcases hxprop with ⟨_, _, h3⟩ | ⟨_, _, h3⟩ | ⟨_, h2, _⟩
      · exact absurd hxmem h3
      · exact absurd hxmem h3
      · exact h2
    have hxlt : ¬p.next_id ≤ x := by
      rcases hxprop with ⟨_, _, h3⟩ | ⟨h1, _, _⟩ | ⟨h1, _, _⟩
      · exact absurd hxmem h3
      · exact h1
      · exact h1
    have hdrop : p.recycled_ids.dropLast = ys := by simp [hys]
    have hndys : ys.Nodup ∧ x ∉ ys := by
      rw [hys] at hnd
      rcases List.nodup_append.mp hnd with ⟨h1, _, h3⟩
      exact ⟨h1, fun hm => h3 hm (List.mem_singleton_self x)⟩
    unfold PoolInv PoolPartition
    dsimp only
    constructor
    · intro id
      by_cases hid : id = x
      · subst hid
        right; left
        refine ⟨hxlt, by simp, by rw [hdrop]; exact hndys.2⟩
      · have hmem_iff : id ∈ p.recycled_ids ↔ id ∈ ys := by
          rw [hys]; simp [hid]
        rcases hpart id with ⟨h1, h2, h3⟩ | ⟨h1, h2, h3⟩ | ⟨h1, h2, h3⟩
        · left
          refine ⟨h1, ?_, by rw [hdrop]; exact fun hm => h3 (hmem_iff.mpr hm)⟩
          simp only [Finset.mem_insert]
          rintro (rfl | hmem)
          · exact hid rfl
          · exact h2 hmem
        · right; left
          refine ⟨h1, by simp [Finset.mem_insert, h2], ?_⟩
          rw [hdrop]
          exact fun hm => h3 (hmem_iff.mpr hm)
        · right; right
          refine ⟨h1, ?_, by rw [hdrop]; exact hmem_iff.mp h3⟩
          simp only [Finset.mem_insert]
          rintro (rfl | hmem)
          · exact hid rfl
          · exact h2 hmem
    · rw [hdrop]
      exact hndys.1

lemma poolInv_release (p : IdPool) (id : Nat) (p' : IdPool)
    (h : PoolInv p) (hr : p.release_id id = .ok p') : PoolInv p' := by
  obtain ⟨hpart, hnd⟩ := h
  unfold IdPool.release_id at hr
  by_cases hin : id ∈ p.used_ids
  · rw [if_pos hin] at hr
    injection hr with hr
    subst hr
    have hidprop := hpart id
    have hidrec : id ∉ p.recycled_ids := by
      rcases hidprop with ⟨_, h2, _⟩ | ⟨_, _, h3⟩ | ⟨_, h2, _⟩
      · exact absurd hin h2
      · exact h3
      · exact absurd hin h2
    have hidlt : ¬p.next_id ≤ id := by
      rcases hidprop with ⟨_, h2, _⟩ | ⟨h1, _, _⟩ | ⟨_, h2, _⟩
      · exact absurd hin h2
      · exact h1
      · exact absurd hin h2
    constructor
    · intro j
      by_cases hj : j = id
      · subst hj
        right; right
        refine ⟨hidlt, by simp, by simp⟩
      · have : (j ∈ p.recycled_ids ++ [id]) ↔ j ∈ p.recycled_ids := by
          simp [hj]
        rcases hpart j with ⟨h1, h2, h3⟩ | ⟨h1, h2, h3⟩ | ⟨h1, h2, h3⟩
        · left
          exact ⟨h1, fun hm => h2 (Finset.mem_of_mem_erase hm),
            fun hm => h3 (this.mp hm)⟩
        · right; left
          exact ⟨h1, Finset.mem_erase.mpr ⟨hj, h2⟩, fun hm => h3 (this.mp hm)⟩
        · right; right
          exact ⟨h1, fun hm => h2 (Finset.mem_of_mem_erase hm), this.mpr h3⟩
    · simp only [List.nodup_append]
      exact ⟨hnd, List.nodup_singleton id,
        fun a ha hb => by rw [List.mem_singleton] at hb; subst hb; exact hidrec ha⟩
  · rw [if_neg hin] at hr
    exact absurd hr (by simp)

lemma reachable_poolInv (p : IdPool) (h : ReachablePool p) : PoolInv p := by
  induction h with
  | new => exact poolInv_new
  | acquire q _ ih => exact poolInv_acquire q ih
  | release q id q' _ hr ih => exact poolInv_release q id q' ih hr

/-- Claim C9: on every reachable pool state (any sequence of `acquire_id`
and successful `release_id` from a fresh pool) each identifier is in
exactly one of the three places — at or above the next-counter, in the
used set, or on the recycle stack — and, reachability being closed under
both operations, `acquire_id` and `release_id` preserve the partition. -/
theorem C9_pool_partition (p : IdPool) (h : ReachablePool p) :
    PoolPartition p :=
  (reachable_poolInv p h).1

/-- Witness for C9 at a concrete reachable state: the pool after one
`acquire_id` from fresh. -/
theorem C9_pool_partition_witness : PoolPartition IdPool.new.acquire_id.1 :=
  C9_pool_partition IdPool.new.acquire_id.1
    (ReachablePool.acquire IdPool.new ReachablePool.new)

/-- Claim C8: after an acquire, releasing the acquired id succeeds and a
second release of the same id fails with `IdNotInUse`; in general
`release_id` succeeds exactly on ids in the used set, moving the id from
the used set to the back of the recycle stack, and fails with
`IdNotInUse` otherwise. -/
theorem C8_release_twice :
    (∀ p : IdPool, ∃ p2 : IdPool,
        p.acquire_id.1.release_id p.acquire_id.2 = .ok p2 ∧
        p2.release_id p.acquire_id.2 =
          .error (.idNotInUse p.acquire_id.2)) ∧
    (∀ (p : IdPool) (id : Nat), id ∈ p.used_ids →
        p.release_id id =
          .ok ⟨p.next_id, p.recycled_ids ++ [id], p.used_ids.erase id⟩) ∧
    (∀ (p : IdPool) (id : Nat), id ∉ p.used_ids →
        p.release_id id = .error (.idNotInUse id)) := by
  refine ⟨?_, ?_, ?_⟩
  · intro p
    have hmem : p.acquire_id.2 ∈ p.acquire_id.1.used_ids := by
      unfold IdPool.acquire_id
      rcases p.recycled_ids.getLast? with - | x <;> simp
    refine ⟨⟨p.acquire_id.1.next_id,
        p.acquire_id.1.recycled_ids ++ [p.acquire_id.2],
        p.acquire_id.1.used_ids.erase p.acquire_id.2⟩, ?_, ?_⟩
    · unfold IdPool.release_id
      rw [if_pos hmem]
    · unfold IdPool.release_id
      rw [if_neg (by simp)]
  · intro p id hin
    unfold IdPool.release_id
    rw [if_pos hin]
  · intro p id hout
    unfold IdPool.release_id
    rw [if_neg hout]

/-- Witness for C8 at a concrete pool: id 4 is in use; releasing it moves
it to the recycle stack. -/
theorem C8_release_twice_witness :
    IdPool.release_id ⟨5, [2], {4}⟩ 4 = .ok ⟨5, [2, 4], Finset.erase {4} 4⟩ :=
  C8_release_twice.2.1 ⟨5, [2], {4}⟩ 4 (by decide)

lemma acquire_id_mem_used (p : IdPool) :
    p.acquire_id.2 ∈ p.acquire_id.1.used_ids := by
  unfold IdPool.acquire_id
  rcases p.recycled_ids.getLast? with - | x <;> simp

lemma removeFirstById_append_self (xs : List TodoItem) (it : TodoItem)
    (id : Nat) (h : it.id = id) :
    ∃ r rest, removeFirstById (xs ++ [it]) id = some (r, rest) := by
  induction xs with
  | nil => exact ⟨it, [], by simp [removeFirstById, h]⟩
  | cons x xs ih =>
    by_cases hx : x.id = id
    · exact ⟨x, xs ++ [it], by simp [removeFirstById, hx]⟩
    · obtain ⟨r, rest, hr⟩ := ih
      exact ⟨r, x :: rest, by simp [removeFirstById, hx, hr]⟩

lemma removeCore_eq_ok (l : TodoList) (id : Nat) (r : TodoItem)
    (rest : List TodoItem) (hfind : removeFirstById l.items id = some (r, rest))
    (hmem : id ∈ l.id_pool.used_ids) :
    l.removeCore id =
      .ok (⟨rest, ⟨l.id_pool.next_id, l.id_pool.recycled_ids ++ [id],
        l.id_pool.used_ids.erase id⟩⟩, r) := by
  simp only [TodoList.removeCore, hfind, IdPool.release_id, if_pos hmem]

lemma addCore_snd_id (l : TodoList) (d : String) (t : Option Int) :
    (l.addCore d t).2.id = l.id_pool.acquire_id.2 := rfl

lemma acquire_id_snd_of_getLast (p : IdPool) (x : Nat)
    (h : p.recycled_ids.getLast? = some x) : p.acquire_id.2 = x := by
  simp [IdPool.acquire_id, h]

/-- Claim C6: `acquire_id` pops the recycle stack (LIFO) when it is
non-empty and otherwise issues the counter value (it is total, hence
never fails); after any root-level add, removing that item's id succeeds
and the very next add on the resulting list reuses the same id; and on an
empty list the adds yield ids 0 and 1, removing id 0 leaves 0 on the
recycle stack, and the next add reuses id 0. -/
theorem C6_id_recycling :
    (∀ (p : IdPool) (x : Nat), p.recycled_ids.getLast? = some x →
        p.acquire_id =
          (⟨p.next_id, p.recycled_ids.dropLast, insert x p.used_ids⟩, x)) ∧
    (∀ p : IdPool, p.recycled_ids.getLast? = none →
        p.acquire_id =
          (⟨p.next_id + 1, p.recycled_ids, insert p.next_id p.used_ids⟩,
            p.next_id)) ∧
    (∀ (l : TodoList) (d1 : String) (t1 : Option Int),
        ∃ (l1 : TodoList) (it : TodoItem) (l2 : TodoList) (rem : TodoItem),
          l.add_item d1 t1 none = .ok (l1, it) ∧
          l1.removeCore it.id = .ok (l2, rem) ∧
          ∀ (d2 : String) (t2 : Option Int),
            (l2.addCore d2 t2).2.id = it.id) ∧
    recycleScenario = some (0, 1, [0], 0) := by
  refine ⟨?_, ?_, ?_, rfl⟩
  · intro p x hx
    unfold IdPool.acquire_id
    rw [hx]
  · intro p hx
    unfold IdPool.acquire_id
    rw [hx]
  · intro l d1 t1
    have hmem := acquire_id_mem_used l.id_pool
    obtain ⟨r, rest, hfind⟩ := removeFirstById_append_self l.items
      (TodoItem.mk l.id_pool.acquire_id.2 d1 false (t1.map timeToString) none)
      l.id_pool.acquire_id.2 rfl
    refine ⟨TodoList.mk (l.items ++
        [TodoItem.mk l.id_pool.acquire_id.2 d1 false (t1.map timeToString) none])
        l.id_pool.acquire_id.1,
      TodoItem.mk l.id_pool.acquire_id.2 d1 false (t1.map timeToString) none,
      TodoList.mk rest ⟨l.id_pool.acquire_id.1.next_id,
        l.id_pool.acquire_id.1.recycled_ids ++ [l.id_pool.acquire_id.2],
        l.id_pool.acquire_id.1.used_ids.erase l.id_pool.acquire_id.2⟩,
      r, rfl, removeCore_eq_ok _ _ r rest hfind hmem, ?_⟩
    intro d2 t2
    rw [addCore_snd_id]
    exact acquire_id_snd_of_getLast _ _ (List.getLast?_concat _)

/-- Witness for C6: `acquire_id` pops the most recently recycled id of a
concrete pool. -/
theorem C6_id_recycling_witness :
    IdPool.acquire_id ⟨5, [3, 7], {1}⟩ =
      (⟨5, List.dropLast [3, 7], insert 7 {1}⟩, 7) :=
  C6_id_recycling.1 ⟨5, [3, 7], {1}⟩ 7 rfl

/-! ### Path resolution -/

/-- Claim C3 (amended): resolving the empty path fails with
`InvalidPathFormat`, for every list state — `"".split(':')` yields the
single empty segment, whose integer parse fails before the emptiness
check that would report `PathNotFound` is ever reached. -/
theorem C3_empty_path (l : TodoList) :
    l.parse_path "" = .error (.invalidPathFormat "") := rfl

/-- Counterexample to claim C3 as stated: on the empty list the empty
path is rejected with `InvalidPathFormat`, which is not the
`PathNotFound` error the claim names. -/
theorem C3_counterexample :
    TodoList.new.parse_path "" = .error (.invalidPathFormat "") ∧
    TdError.invalidPathFormat "" ≠ TdError.pathNotFound :=
  ⟨rfl, by decide⟩

/-- Claim C7: resolution of a non-empty parsed path walks the segments —
out-of-range index at any segment gives `IndexOutOfBounds {index, depth,
path}`; a non-final segment whose item lacks a sub-list gives
`NoSublistAtIndex {index, path}`; a final in-range segment returns its
item; a non-final in-range segment descends into the sub-list with the
depth incremented.  On the demo state, `"0:0"` resolves to the nested
item and `"0:1"` fails with `IndexOutOfBounds {index 1, depth 1}`. -/
theorem C7_path_walk :
    (∀ (l : TodoList) (path : String) (ids : List Nat),
        pathIndices path = some ids → ids ≠ [] →
        l.parse_path path = walkPath l ids 0 path) ∧
    (∀ (l : TodoList) (i : Nat) (rest : List Nat) (depth : Nat)
        (path : String), l.items.length ≤ i →
        walkPath l (i :: rest) depth path =
          .error (.indexOutOfBounds i depth path)) ∧
    (∀ (l : TodoList) (i : Nat) (it : TodoItem) (depth : Nat)
        (path : String), l.items[i]? = some it →
        walkPath l [i] depth path = .ok it) ∧
    (∀ (l : TodoList) (i : Nat) (it : TodoItem) (j : Nat) (rest : List Nat)
        (depth : Nat) (path : String),
        l.items[i]? = some it → it.sub_list = none →
        walkPath l (i :: j :: rest) depth path =
          .error (.noSublistAtIndex i path)) ∧
    (∀ (l s : TodoList) (i : Nat) (it : TodoItem) (j : Nat) (rest : List Nat)
        (depth : Nat) (path : String),
        l.items[i]? = some it → it.sub_list = some s →
        walkPath l (i :: j :: rest) depth path =
          walkPath s (j :: rest) (depth + 1) path) ∧
    demo7.parse_path "0:0" = .ok (.mk 0 "n" false none none) ∧
    demo7.parse_path "0:1" = .error (.indexOutOfBounds 1 1 "0:1") := by
  refine ⟨?_, ?_, ?_, ?_, ?_, rfl, rfl⟩
  · intro l path ids hids hne
    simp [TodoList.parse_path, hids, hne]
  · intro l i rest depth path h
    have hnone : l.items[i]? = none := List.getElem?_eq_none h
    simp [walkPath, hnone]
  · intro l i it depth path h
    simp [walkPath, h]
  · intro l i it j rest depth path h hs
    simp [walkPath, h, hs]
  · intro l s i it j rest depth path h hs
    simp [walkPath, h, hs]

/-- Witness for C7 at concrete inputs: an out-of-range index errors with
the depth recorded, and the walk descends through a present sub-list. -/
theorem C7_path_walk_witness :
    walkPath demo7 [5] 0 "5" = .error (.indexOutOfBounds 5 0 "5") ∧
    walkPath demo7 [0, 0] 0 "0:0" =
      walkPath (.mk [.mk 0 "n" false none none] ⟨1, [], {0}⟩) [0] 1 "0:0" :=
  ⟨C7_path_walk.2.1 demo7 5 [] 0 "5" (by decide),
   C7_path_walk.2.2.2.2.1 demo7
     (.mk [.mk 0 "n" false none none] ⟨1, [], {0}⟩) 0
     (.mk 0 "a" false none
       (some (.mk [.mk 0 "n" false none none] ⟨1, [], {0}⟩))) 0 [] 0 "0:0"
     rfl rfl⟩

/-! ### Edit overwrites, remove mutates on error -/

lemma modifyPath_ok_snd {α : Type} (f : TodoItem → TodoItem × α) :
    ∀ (idx : List Nat) (l : TodoList) (depth : Nat) (path : String)
      (l' : TodoList) (a : α),
      modifyPath l idx depth path f = .ok (l', a) → ∃ it, a = (f it).2 := by
  intro idx
  induction idx with
  | nil => intro l depth path l' a h; simp [modifyPath] at h
  | cons i rest ih =>
    intro l depth path l' a h
    rw [modifyPath] at h
    split at h
    · simp at h
    · rename_i it hg
      split at h
      · simp only [Except.ok.injEq, Prod.mk.injEq] at h
        exact ⟨it, h.2.symm⟩
      · split at h
        · simp at h
        · rename_i s hs
          split at h
          · simp at h
          · rename_i s' a' hm
            simp only [Except.ok.injEq, Prod.mk.injEq] at h
            obtain ⟨it0, hit0⟩ := ih s (depth + 1) path s' a' hm
            exact ⟨it0, by rw [← h.2]; exact hit0⟩

lemma resolveModify_ok_snd {α : Type} (l : TodoList) (path : String)
    (f : TodoItem → TodoItem × α) (l' : TodoList) (a : α)
    (h : resolveModify l path f = .ok (l', a)) : ∃ it, a = (f it).2 := by
  rw [resolveModify] at h
  split at h
  · simp at h
  · rename_i ids hi
    split at h
    · simp at h
    · exact modifyPath_ok_snd f ids l 0 path l' a h

/-- Claim C1 (amended): whenever `edit_item` succeeds, the returned item
has the new description *and* has its deadline overwritten with
`deadline.map(to_string)` unconditionally — a `None` deadline argument
clears any stored deadline instead of preserving it. -/
theorem C1_edit_overwrites (l : TodoList) (path description : String)
    (deadline : Option Int) (l' : TodoList) (it : TodoItem)
    (h : l.edit_item path description deadline = .ok (l', it)) :
    it.description = description ∧
    it.deadline = deadline.map timeToString := by
  obtain ⟨it0, hit0⟩ := resolveModify_ok_snd l path _ l' it h
  obtain ⟨i, d, c, dl, s⟩ := it0
  subst hit0
  exact ⟨rfl, rfl⟩

/-- Witness for C1: editing the demo item with a fresh deadline. -/
theorem C1_edit_overwrites_witness :
    (TodoItem.mk 0 "x" false (some "5") none).description = "x" ∧
    (TodoItem.mk 0 "x" false (some "5") none).deadline =
      (some (5 : Int)).map timeToString :=
  C1_edit_overwrites demo1 "0" "x" (some 5)
    (.mk [.mk 0 "x" false (some "5") none] ⟨1, [], {0}⟩)
    (.mk 0 "x" false (some "5") none) rfl

/-- Counterexample to claim C1 as stated: the demo item's deadline is
`some "77"`, yet editing it with no deadline argument returns (and
stores) the item with its deadline cleared to `none` — the pre-existing
deadline is not preserved. -/
theorem C1_counterexample :
    demo1.edit_item "0" "b" none =
      .ok (.mk [.mk 0 "b" false none none] ⟨1, [], {0}⟩,
           .mk 0 "b" false none none) ∧
    demo1.items.map TodoItem.deadline = [some "77"] :=
  ⟨rfl, rfl⟩

/-- Claim C2 is violated by `remove_item` (code bug): removing `"0:5"`
from the demo state fails with `ItemNotFound 5`, yet the returned state
differs from the input — the `get_or_insert` on the resolved parent has
installed an empty sub-list under item 0 before the failing id lookup. -/
theorem C2_remove_mutates_on_error :
    demo2.remove_item "0:5" =
      (.mk [.mk 0 "a" false none (some TodoList.new)] ⟨1, [], {0}⟩,
       .error (.itemNotFound 5)) ∧
    demo2.items.map TodoItem.sub_list = [none] :=
  ⟨rfl, rfl⟩

/-! ### Deadline parsing -/

lemma endsWithL_append_self (s u : List Char) :
    endsWithL (s ++ u) u = true := by
  simp only [endsWithL, decide_eq_true_eq]
  exact ⟨s, rfl⟩

lemma suffix_append_iff_of_le (s u pat : List Char)
    (h : pat.length ≤ u.length) : pat <:+ (s ++ u) ↔ pat <:+ u := by
  constructor
  · rintro ⟨w, hw⟩
    have hlen : w.length = s.length + (u.length - pat.length) := by
      have hl := congrArg List.length hw
      simp only [List.length_append] at hl
      omega
    have h1 : pat = u.drop (u.length - pat.length) := by
      have hd := congrArg (List.drop w.length) hw
      rw [List.drop_left] at hd
      rw [hlen, List.drop_append] at hd
      exact hd
    rw [h1]
    exact List.drop_suffix _ _
  · rintro ⟨w, hw⟩
    exact ⟨s ++ w, by rw [List.append_assoc, hw]⟩

lemma endsWithL_append_of_le (s u pat : List Char)
    (h : pat.length ≤ u.length) :
    endsWithL (s ++ u) pat = endsWithL u pat :=
  decide_eq_decide.mpr (suffix_append_iff_of_le s u pat h)

lemma endsWithL_digits_false (s pat : List Char)
    (hdig : s.all (·.isDigit) = true) (c : Char) (hc : c ∈ pat)
    (hcd : c.isDigit = false) : endsWithL s pat = false := by
  simp only [endsWithL, decide_eq_false_iff_not]
  intro hsuf
  have hmem : c ∈ s := hsuf.subset hc
  have h2 : c.isDigit = true := by
    have := List.all_eq_true.mp hdig c hmem
    simpa using this
  exact absurd (h2.symm.trans hcd) (by decide)

lemma endsWithL_append_mixed_false (s u pat : List Char)
    (hdig : s.all (·.isDigit) = true) (c : Char) (hc : c ∈ pat)
    (hcd : c.isDigit = false) (hcu : c ∉ u) :
    endsWithL (s ++ u) pat = false := by
  simp only [endsWithL, decide_eq_false_iff_not]
  intro hsuf
  rcases List.mem_append.mp (hsuf.subset hc) with hs | hmu
  · have h2 : c.isDigit = true := by
      have := List.all_eq_true.mp hdig c hs
      simpa using this
    exact absurd (h2.symm.trans hcd) (by decide)
  · exact hcu hmu

lemma trimEndMatchesAux_no_suffix (fuel : Nat) (s pat : List Char)
    (h : endsWithL s pat = false) : trimEndMatchesAux fuel s pat = s := by
  cases fuel with
  | zero => rfl
  | succ n =>
    unfold trimEndMatchesAux
    rw [if_neg (fun hc => by rw [h] at hc; exact Bool.false_ne_true hc.2)]

lemma trimEndMatches_no_suffix (s pat : List Char)
    (h : endsWithL s pat = false) : trimEndMatches s pat = s :=
  trimEndMatchesAux_no_suffix _ s pat h

lemma trimEndMatches_append_unit (s u : List Char) (hu : u ≠ [])
    (h : endsWithL s u = false) : trimEndMatches (s ++ u) u = s := by
  unfold trimEndMatches
  obtain ⟨m, hm⟩ : ∃ m, (s ++ u).length = m + 1 :=
    ⟨(s ++ u).length - 1, by
      have : 1 ≤ u.length := List.length_pos.mpr hu
      simp [List.length_append]
      omega⟩
  rw [hm]
  unfold trimEndMatchesAux
  rw [if_pos ⟨hu, endsWithL_append_self s u⟩]
  have htake : (s ++ u).take ((s ++ u).length - u.length) = s := by
    rw [List.length_append]
    have he : s.length + u.length - u.length = s.length := by omega
    rw [he]
    exact List.take_left s u
  rw [htake]
  exact trimEndMatchesAux_no_suffix m s u h

lemma parseI64_digits (s : List Char) (hne : s ≠ [])
    (hdig : s.all (·.isDigit) = true) :
    parseI64 s = some ((natOfDigits s : Nat) : Int) := by
  obtain ⟨c, cs, rfl⟩ : ∃ c cs, s = c :: cs := by
    cases s with
    | nil => exact absurd rfl hne
    | cons c cs => exact ⟨c, cs, rfl⟩
  have hc : c.isDigit = true := by
    simp only [List.all_cons, Bool.and_eq_true] at hdig
    simpa using hdig.1
  have hcm : c ≠ '-' := by rintro rfl; exact absurd hc (by decide)
  have hcp : c ≠ '+' := by rintro rfl; exact absurd hc (by decide)
  simp only [parseI64, List.head?_cons, Option.some.injEq]
  rw [if_neg hcm, if_neg hcp, if_pos ⟨hne, hdig⟩]

/-- Every token of the form digits-plus-recognized-unit-suffix enters its
branch and contributes `k * magnitude` seconds. -/
lemma sumDurationParts_unit_token (u : List Char) (k : Int)
    (hu : (u, k) ∈ unitTable) (s : List Char) (acc : Int) (hne : s ≠ [])
    (hdig : s.all (·.isDigit) = true) :
    sumDurationParts [s ++ u] acc =
      some (acc + k * (natOfDigits s : Int)) := by
  have hp := parseI64_digits s hne hdig
  have hdd : endsWithL s ['d'] = false :=
    endsWithL_digits_false s _ hdig 'd' (by decide) (by decide)
  have hday : endsWithL s ['d','a','y'] = false :=
    endsWithL_digits_false s _ hdig 'd' (by decide) (by decide)
  have hdays : endsWithL s ['d','a','y','s'] = false :=
    endsWithL_digits_false s _ hdig 'd' (by decide) (by decide)
  have hh : endsWithL s ['h'] = false :=
    endsWithL_digits_false s _ hdig 'h' (by decide) (by decide)
  have hhour : endsWithL s ['h','o','u','r'] = false :=
    endsWithL_digits_false s _ hdig 'h' (by decide) (by decide)
  have hhours : endsWithL s ['h','o','u','r','s'] = false :=
    endsWithL_digits_false s _ hdig 'h' (by decide) (by decide)
  have hm : endsWithL s ['m'] = false :=
    endsWithL_digits_false s _ hdig 'm' (by decide) (by decide)
  have hmin : endsWithL s ['m','i','n'] = false :=
    endsWithL_digits_false s _ hdig 'm' (by decide) (by decide)
  have hminute : endsWithL s ['m','i','n','u','t','e'] = false :=
    endsWithL_digits_false s _ hdig 'm' (by decide) (by decide)
  have hminutes : endsWithL s ['m','i','n','u','t','e','s'] = false :=
    endsWithL_digits_false s _ hdig 'm' (by decide) (by decide)
  fin_cases hu
  · -- "d": the first branch guard holds outright
    have e0 := endsWithL_append_self s ['d']
    have t1 := trimEndMatches_append_unit s ['d'] (by decide) hdd
    have t2 := trimEndMatches_no_suffix s ['d','a','y'] hday
    have t3 := trimEndMatches_no_suffix s ['d','a','y','s'] hdays
    simp [sumDurationParts, e0, t1, t2, t3, hp]
  · -- "days"
    have c1 : endsWithL (s ++ ['d','a','y','s']) ['d'] = false := by
      rw [endsWithL_append_of_le s _ _ (by decide)]; decide
    have e0 := endsWithL_append_self s ['d','a','y','s']
    have t1 := trimEndMatches_no_suffix (s ++ ['d','a','y','s']) ['d'] c1
    have t2 : trimEndMatches (s ++ ['d','a','y','s']) ['d','a','y'] =
        s ++ ['d','a','y','s'] := by
      refine trimEndMatches_no_suffix _ _ ?_
      rw [endsWithL_append_of_le s _ _ (by decide)]; decide
    have t3 := trimEndMatches_append_unit s ['d','a','y','s'] (by decide) hdays
    simp [sumDurationParts, c1, e0, t1, t2, t3, hp]
  · -- "h"
    have c1 : endsWithL (s ++ ['h']) ['d'] = false := by
      rw [endsWithL_append_of_le s _ _ (by decide)]; decide
    have c2 : endsWithL (s ++ ['h']) ['d','a','y','s'] = false :=
      endsWithL_append_mixed_false s _ _ hdig 'a' (by decide) (by decide)
        (by decide)
    have e0 := endsWithL_append_self s ['h']
    have t1 := trimEndMatches_append_unit s ['h'] (by decide) hh
    have t2 := trimEndMatches_no_suffix s ['h','o','u','r'] hhour
    have t3 := trimEndMatches_no_suffix s ['h','o','u','r','s'] hhours
    simp [sumDurationParts, c1, c2, e0, t1, t2, t3, hp]
  · -- "hours"
    have c1 : endsWithL (s ++ ['h','o','u','r','s']) ['d'] = false := by
      rw [endsWithL_append_of_le s _ _ (by decide)]; decide
    have c2 : endsWithL (s ++ ['h','o','u','r','s']) ['d','a','y','s'] =
        false := by
      rw [endsWithL_append_of_le s _ _ (by decide)]; decide
    have c3 : endsWithL (s ++ ['h','o','u','r','s']) ['h'] = false := by
      rw [endsWithL_append_of_le s _ _ (by decide)]; decide
    have e0 := endsWithL_append_self s ['h','o','u','r','s']
    have t1 := trimEndMatches_no_suffix (s ++ ['h','o','u','r','s']) ['h'] c3
    have t2 : trimEndMatches (s ++ ['h','o','u','r','s']) ['h','o','u','r'] =
        s ++ ['h','o','u','r','s'] := by
      refine trimEndMatches_no_suffix _ _ ?_
      rw [endsWithL_append_of_le s _ _ (by decide)]; decide
    have t3 := trimEndMatches_append_unit s ['h','o','u','r','s'] (by decide)
      hhours
    simp [sumDurationParts, c1, c2, c3, e0, t1, t2, t3, hp]
  · -- "m"
    have c1 : endsWithL (s ++ ['m']) ['d'] = false := by
      rw [endsWithL_append_of_le s _ _ (by decide)]; decide
    have c2 : endsWithL (s ++ ['m']) ['d','a','y','s'] = false :=
      endsWithL_append_mixed_false s _ _ hdig 'a' (by decide) (by decide)
        (by decide)
    have c3 : endsWithL (s ++ ['m']) ['h'] = false := by
      rw [endsWithL_append_of_le s _ _ (by decide)]; decide
    have c4 : endsWithL (s ++ ['m']) ['h','o','u','r','s'] = false :=
      endsWithL_append_mixed_false s _ _ hdig 'o' (by decide) (by decide)
        (by decide)
    have e0 := endsWithL_append_self s ['m']
    have t1 := trimEndMatches_append_unit s ['m'] (by decide) hm
    have t2 := trimEndMatches_no_suffix s ['m','i','n'] hmin
    have t3 := trimEndMatches_no_suffix s ['m','i','n','u','t','e'] hminute
    have t4 := trimEndMatches_no_suffix s ['m','i','n','u','t','e','s']
      hminutes
    simp [sumDurationParts, c1, c2, c3, c4, e0, t1, t2, t3, t4, hp]
  · -- "min"
    have c1 : endsWithL (s ++ ['m','i','n']) ['d'] = false := by
      rw [endsWithL_append_of_le s _ _ (by decide)]; decide
    have c2 : endsWithL (s ++ ['m','i','n']) ['d','a','y','s'] = false :=
      endsWithL_append_mixed_false s _ _ hdig 'a' (by decide) (by decide)
        (by decide)
    have c3 : endsWithL (s ++ ['m','i','n']) ['h'] = false := by
      rw [endsWithL_append_of_le s _ _ (by decide)]; decide
    have c4 : endsWithL (s ++ ['m','i','n']) ['h','o','u','r','s'] = false :=
      endsWithL_append_mixed_false s _ _ hdig 'o' (by decide) (by decide)
        (by decide)
    have c5 : endsWithL (s ++ ['m','i','n']) ['m'] = false := by
      rw [endsWithL_append_of_le s _ _ (by decide)]; decide
    have e0 := endsWithL_append_self s ['m','i','n']
    have t1 := trimEndMatches_no_suffix (s ++ ['m','i','n']) ['m'] c5
    have t2 := trimEndMatches_append_unit s ['m','i','n'] (by decide) hmin
    have t3 := trimEndMatches_no_suffix s ['m','i','n','u','t','e'] hminute
    have t4 := trimEndMatches_no_suffix s ['m','i','n','u','t','e','s']
      hminutes
    simp [sumDurationParts, c1, c2, c3, c4, c5, e0, t1, t2, t3, t4, hp]
  · -- "minutes"
    have c1 : endsWithL (s ++ ['m','i','n','u','t','e','s']) ['d'] =
        false := by
      rw [endsWithL_append_of_le s _ _ (by decide)]; decide
    have c2 : endsWithL (s ++ ['m','i','n','u','t','e','s'])
        ['d','a','y','s'] = false := by
      rw [endsWithL_append_of_le s _ _ (by decide)]; decide
    have c3 : endsWithL (s ++ ['m','i','n','u','t','e','s']) ['h'] =
        false := by
      rw [endsWithL_append_of_le s _ _ (by decide)]; decide
    have c4 : endsWithL (s ++ ['m','i','n','u','t','e','s'])
        ['h','o','u','r','s'] = false := by
      rw [endsWithL_append_of_le s _ _ (by decide)]; decide
    have c5 : endsWithL (s ++ ['m','i','n','u','t','e','s']) ['m'] =
        false := by
      rw [endsWithL_append_of_le s _ _ (by decide)]; decide
    have c6 : endsWithL (s ++ ['m','i','n','u','t','e','s'])
        ['m','i','n'] = false := by
      rw [endsWithL_append_of_le s _ _ (by decide)]; decide
    have e0 := endsWithL_append_self s ['m','i','n','u','t','e','s']
    have t1 := trimEndMatches_no_suffix (s ++ ['m','i','n','u','t','e','s'])
      ['m'] c5
    have t2 := trimEndMatches_no_suffix (s ++ ['m','i','n','u','t','e','s'])
      ['m','i','n'] c6
    have t3 : trimEndMatches (s ++ ['m','i','n','u','t','e','s'])
        ['m','i','n','u','t','e'] = s ++ ['m','i','n','u','t','e','s'] := by
      refine trimEndMatches_no_suffix _ _ ?_
      rw [endsWithL_append_of_le s _ _ (by decide)]; decide
    have t4 := trimEndMatches_append_unit s ['m','i','n','u','t','e','s']
      (by decide) hminutes
    simp [sumDurationParts, c1, c2, c3, c4, c5, c6, e0, t1, t2, t3, t4, hp]

lemma isDigit_not_ws (c : Char) (h : c.isDigit = true) :
    c.isWhitespace = false := by
  by_cases h1 : c = ' '
  · subst h1; exact absurd h (by decide)
  by_cases h2 : c = '\t'
  · subst h2; exact absurd h (by decide)
  by_cases h3 : c = '\r'
  · subst h3; exact absurd h (by decide)
  by_cases h4 : c = '\n'
  · subst h4; exact absurd h (by decide)
  simp [Char.isWhitespace, h1, h2, h3, h4]

lemma wordsAux_no_ws (t : List Char) :
    ∀ acc : List Char, (∀ c ∈ t, c.isWhitespace = false) →
      acc ≠ [] ∨ t ≠ [] → wordsAux t acc = [acc.reverse ++ t] := by
  induction t with
  | nil =>
    intro acc _ hne
    rcases hne with hne | hne
    · simp [wordsAux, hne]
    · exact absurd rfl hne
  | cons c rest ih =>
    intro acc hws _
    have hc : c.isWhitespace = false := hws c (List.mem_cons_self c rest)
    have := ih (c :: acc) (fun d hd => hws d (List.mem_cons_of_mem c hd))
      (Or.inl (by simp))
    simp only [wordsAux, hc, Bool.false_eq_true, if_false, this]
    simp

/-- A non-empty whitespace-free character sequence splits into exactly
one token. -/
lemma words_single (t : List Char) (hws : ∀ c ∈ t, c.isWhitespace = false)
    (hne : t ≠ []) : words t = [t] := by
  unfold words
  rw [wordsAux_no_ws t [] hws (Or.inr hne)]
  simp

/-- Tokens entering none of the three unit branches leave the duration
accumulator untouched. -/
lemma sumDurationParts_unrecognized (ps : List (List Char)) :
    ∀ acc : Int, (∀ p ∈ ps, tokenRecognized p = false) →
      sumDurationParts ps acc = some acc := by
  induction ps with
  | nil => intro acc _; rfl
  | cons p ps ih =>
    intro acc h
    have hp := h p (List.mem_cons_self p ps)
    have hg1 : (endsWithL p ['d'] || endsWithL p ['d','a','y','s']) =
        false := by
      revert hp; unfold tokenRecognized
      cases endsWithL p ['d'] || endsWithL p ['d','a','y','s'] <;> simp
    have hg2 : (endsWithL p ['h'] || endsWithL p ['h','o','u','r','s']) =
        false := by
      revert hp; unfold tokenRecognized
      cases endsWithL p ['h'] || endsWithL p ['h','o','u','r','s'] <;> simp
    have hg3 : (endsWithL p ['m'] || endsWithL p ['m','i','n'] ||
        endsWithL p ['m','i','n','u','t','e','s']) = false := by
      revert hp; unfold tokenRecognized
      cases endsWithL p ['m'] || endsWithL p ['m','i','n'] ||
        endsWithL p ['m','i','n','u','t','e','s'] <;> simp
    simp only [sumDurationParts, hg1, hg2, hg3, Bool.false_eq_true, if_false]
    exact ih acc (fun q hq => h q (List.mem_cons_of_mem p hq))

/-- Claim C4 is contradicted by the code (code bug): `parse_deadline` on
the bare date `"2025-03-01"` fails with `InvalidDeadlineFormat` — the
date-only branch uses `NaiveDateTime::parse_from_str` with a format
carrying no time-of-day fields, which can never produce a
`NaiveDateTime` — instead of succeeding with 23:59:59 as the function's
own doc comment promises. -/
theorem C4_bare_date_rejected (tz now : Int) :
    parse_deadline tz now (some "2025-03-01") =
      .error .invalidDeadlineFormat := rfl

/-- Claim C5 (amended): `"+2d 3h"` adds two days and three hours to the
current moment; a token of digits followed by any recognized suffix from
`unitTable` (`d`/`days`/`h`/`hours`/`m`/`min`/`minutes`) contributes its
magnitude times the unit length; but the singular spellings `day`,
`hour`, `minute` match none of the `ends_with` guards, so such tokens
(like any token with an unrecognized suffix) are silently ignored. -/
theorem C5_offset_units :
    (∀ tz now : Int, parse_relative_time tz ('+' :: "2d 3h".data) now =
      some (now + 183600)) ∧
    (∀ (u : List Char) (k : Int), (u, k) ∈ unitTable →
      ∀ (s : List Char) (base : Int), s ≠ [] →
        s.all (·.isDigit) = true →
        parse_duration_offset (s ++ u) base =
          some (base + k * (natOfDigits s : Int))) ∧
    (∀ tz now : Int,
      parse_relative_time tz ('+' :: "2day 3hour 4minute 7q".data) now =
        some now) := by
  refine ⟨?_, ?_, ?_⟩
  · intro tz now
    show parse_duration_offset "2d 3h".data now = some (now + 183600)
    unfold parse_duration_offset
    rw [show sumDurationParts (words "2d 3h".data) 0 = some 183600 from
      by decide]
    rfl
  · intro u k hu s base hne hdig
    have htab : ∀ q ∈ unitTable, ∀ c ∈ q.1, c.isWhitespace = false := by
      decide
    have hw : words (s ++ u) = [s ++ u] := by
      refine words_single (s ++ u) ?_ (by simp [hne])
      intro c hc
      rcases List.mem_append.mp hc with hs | hmu
      · refine isDigit_not_ws c ?_
        have := List.all_eq_true.mp hdig c hs
        simpa using this
      · exact htab (u, k) hu c hmu
    unfold parse_duration_offset
    rw [hw, sumDurationParts_unit_token u k hu s 0 hne hdig]
    show some (base + (0 + k * (natOfDigits s : Int))) =
      some (base + k * (natOfDigits s : Int))
    rw [zero_add]
  · intro tz now
    show parse_duration_offset "2day 3hour 4minute 7q".data now = some now
    unfold parse_duration_offset
    rw [show sumDurationParts (words "2day 3hour 4minute 7q".data) 0 =
      some 0 from by decide]
    show some (now + 0) = some now
    rw [Int.add_zero]

/-- Witness for C5: the token `"2d"` contributes two days. -/
theorem C5_offset_units_witness :
    parse_duration_offset (['2'] ++ ['d']) 0 =
      some (0 + 86400 * (natOfDigits ['2'] : Int)) :=
  C5_offset_units.2.1 ['d'] 86400 (by decide) ['2'] 0 (by decide) (by decide)

/-- Counterexample to claim C5 as stated: the claim lists `day` among the
recognized units, but `"+2day"` contributes zero — the result is the
base time, not base + 2 days. -/
theorem C5_counterexample :
    parse_relative_time 0 "+2day".data 1000 = some 1000 ∧
    (1000 : Int) ≠ 1000 + 2 * 86400 :=
  ⟨by decide, by decide⟩

/-- Claim C10: `parse_deadline("+")` succeeds with the current moment
(the empty offset splits into no tokens, so the zero duration is added),
and in general `parse_relative_time` on `'+'` followed by an offset none
of whose tokens ends in a recognized unit suffix returns `now`
unchanged. -/
theorem C10_empty_offset :
    (∀ tz now : Int, parse_deadline tz now (some "+") = .ok now) ∧
    (∀ (offset : List Char) (tz now : Int),
        (∀ p ∈ words offset, tokenRecognized p = false) →
        parse_relative_time tz ('+' :: offset) now = some now) := by
  constructor
  · intro tz now
    show (Except.ok (now + 0) : Except TdError Int) = .ok now
    rw [Int.add_zero]
  · intro offset tz now h
    have k1 : ¬ (List.map Char.toLower ('+' :: offset) =
        ['t','o','d','a','y']) := by
      intro hc
      simp only [List.map_cons, List.cons.injEq] at hc
      exact absurd hc.1 (by decide)
    have k2 : ¬ (List.map Char.toLower ('+' :: offset) =
        ['t','o','m','o','r','r','o','w']) := by
      intro hc
      simp only [List.map_cons, List.cons.injEq] at hc
      exact absurd hc.1 (by decide)
    have k3 : ¬ (List.map Char.toLower ('+' :: offset) =
        ['n','e','x','t','w','e','e','k']) := by
      intro hc
      simp only [List.map_cons, List.cons.injEq] at hc
      exact absurd hc.1 (by decide)
    simp only [parse_relative_time]
    rw [if_neg k1, if_neg k2, if_neg k3]
    show parse_duration_offset offset now = some now
    unfold parse_duration_offset
    rw [sumDurationParts_unrecognized (words offset) 0 h]
    show some (now + 0) = some now
    rw [Int.add_zero]

/-- Witness for C10 on a concrete unrecognized offset. -/
theorem C10_empty_offset_witness :
    parse_relative_time 0 ('+' :: "xy 3z".data) 42 = some 42 :=
  C10_empty_offset.2 "xy 3z".data 0 42 (by decide)

end Rtodo
